import Mathlib

/-
Verification of the mirall propagation engine
(src/mirall/owncloudpropagator.cpp) against its specification.

The C++ source is shallowly embedded: each job's `start()` method becomes a
pure Lean function from its inputs (the SyncFileItem, the journal records it
reads, and the outcomes of the filesystem / network calls it performs) to the
sequence of observable effects it produces (done() calls, journal writes,
filesystem renames, progress signals).  Paths and header values are `List Char`
(QString / QByteArray), byte counts and times are `Nat`.
-/

set_option linter.unusedVariables false

namespace Mirall

/-- csync instruction attached to a SyncFileItem (the DELETED value is only
produced internally by PropagateLocalRename). -/
inductive SyncInstruction where
  | NEW | SYNC | REMOVE | RENAME | CONFLICT | IGNORE | DELETED
deriving DecidableEq, Repr

/-- SyncFileItem::Direction. -/
inductive SyncDirection where
  | Up | Down | NoDir
deriving DecidableEq, Repr

/-- SyncFileItem::Status values emitted through done(). -/
inductive SyncStatus where
  | Success | Conflict | SoftError | NormalError | FatalError
deriving DecidableEq, Repr

/-- Progress::Kind. -/
inductive ProgressKind where
  | StartUpload | Context | EndUpload | StartDownload | EndDownload
deriving DecidableEq, Repr

/-- The fields of SyncFileItem the propagator reads. -/
structure SyncFileItem where
  file : List Char
  originalFile : List Char
  renameTarget : List Char
  dir : SyncDirection
  instruction : SyncInstruction
  isDirectory : Bool
  size : Nat
  modtime : Nat
  etag : List Char
  fileId : List Char
deriving DecidableEq, Repr

/-- Observable effects of a job run, in program order. -/
inductive JobEvent where
  | done (st : SyncStatus)
  | journalDeleteFileRecord (path : List Char)
  | journalSetFileRecord (path : List Char)
  | fsRename (src dst : List Char)
  | progressEvt (k : ProgressKind) (path : List Char)
deriving DecidableEq, Repr

/-- Outcomes of the filesystem calls PropagateLocalRemove::start performs. -/
structure LocalRemoveEnv where
  dirExists : Bool
  removeRecursivelyOk : Bool
  fileExists : Bool
  fileRemoveOk : Bool
deriving DecidableEq, Repr

/-- Shallow embedding of PropagateLocalRemove::start
(owncloudpropagator.cpp 124-140).  The directory branch returns after
done(NormalError); the file branch does not return after done(NormalError) and
falls through to deleteFileRecord + done(Success), exactly as in the source. -/
def propagateLocalRemove_start (item : SyncFileItem) (env : LocalRemoveEnv) :
    List JobEvent :=
  let tail := [JobEvent.journalDeleteFileRecord item.originalFile,
               JobEvent.done SyncStatus.Success]
  if item.isDirectory then
    if env.dirExists && !env.removeRecursivelyOk then
      [JobEvent.done SyncStatus.NormalError]
    else
      tail
  else
    (if env.fileExists && !env.fileRemoveOk then
        [JobEvent.done SyncStatus.NormalError]
      else []) ++ tail

/-- Number of done() emissions in an event trace. -/
def doneCount (evs : List JobEvent) : Nat :=
  (evs.filter fun e => match e with
    | JobEvent.done _ => true
    | _ => false).length

/-- A non-directory REMOVE item (local deletion). -/
def fileRemoveItem : SyncFileItem :=
  { file := "f.txt".data
  , originalFile := "f.txt".data
  , renameTarget := []
  , dir := SyncDirection.Down
  , instruction := SyncInstruction.REMOVE
  , isDirectory := false
  , size := 0
  , modtime := 0
  , etag := []
  , fileId := [] }

/-- Environment where the local file exists but QFile::remove fails. -/
def failingRemoveEnv : LocalRemoveEnv :=
  { dirExists := true, removeRecursivelyOk := true
  , fileExists := true, fileRemoveOk := false }

/-- Shallow embedding of PropagateLocalRename::start
(owncloudpropagator.cpp 689-704).  The Bool result of QFile::rename is
discarded by the source, hence the renameSucceeded parameter is unused. -/
def propagateLocalRename_start (localDir : List Char) (item : SyncFileItem)
    (renameSucceeded : Bool) : List JobEvent :=
  (if item.file ≠ item.renameTarget then
      [JobEvent.fsRename (localDir ++ item.file) (localDir ++ item.renameTarget)]
    else [])
  ++ [JobEvent.journalDeleteFileRecord item.originalFile,
      JobEvent.journalSetFileRecord item.renameTarget,
      JobEvent.progressEvt ProgressKind.EndDownload item.file,
      JobEvent.done SyncStatus.Success]

/-- A RENAME item whose path differs from its renameTarget. -/
def renameItem : SyncFileItem :=
  { file := "a.txt".data
  , originalFile := "a.txt".data
  , renameTarget := "b.txt".data
  , dir := SyncDirection.Down
  , instruction := SyncInstruction.RENAME
  , isDirectory := false
  , size := 0
  , modtime := 0
  , etag := []
  , fileId := [] }

/-- SyncJournalDb::UploadInfo. -/
structure UploadInfo where
  valid : Bool
  chunk : Nat
  transferid : Nat
  modtime : Nat
deriving DecidableEq, Repr

/-- Modelled from the spec: httpbf (hbf_init_transfer / hbf_splitlist) is an
external library not part of this repository; per spec 4.C a transfer it
initialises starts at chunk 0 with a fresh transfer id.  Returns
(start chunk, transfer id). -/
def initTransferIds (freshTransferId : Nat) : Nat × Nat := (0, freshTransferId)

/-- Shallow embedding of the resume decision of PropagateUploadFile::start
(owncloudpropagator.cpp 269-275): when a valid UploadInfo exists and its
stored modtime equals the item's modtime, the stored chunk index and transfer
id replace the freshly initialised ones. -/
def applyUploadResume (progressInfo : UploadInfo) (itemModtime : Nat)
    (freshTransferId : Nat) : Nat × Nat :=
  let t := initTransferIds freshTransferId
  if progressInfo.valid then
    if progressInfo.modtime = itemModtime then
      (progressInfo.chunk, progressInfo.transferid)
    else t
  else t

/-- SyncJournalDb::DownloadInfo. -/
structure DownloadInfo where
  valid : Bool
  etag : List Char
  tmpfile : List Char
deriving DecidableEq, Repr

def lastIndexOfAux (c : Char) : List Char → Int → Int → Int
  | [], _, best => best
  | x :: xs, pos, best => lastIndexOfAux c xs (pos + 1) (if x = c then pos else best)

/-- QString::lastIndexOf for a single character: -1 when absent. -/
def lastIndexOfC (s : List Char) (c : Char) : Int := lastIndexOfAux c s 0 (-1)

/-- Fresh hidden temp file name (owncloudpropagator.cpp 542-549): insert a dot
after the last slash of the item's path and append ".~" plus a random hex
string. -/
def mkFreshTmpName (file : List Char) (randHex : List Char) : List Char :=
  let slashPos := lastIndexOfC file '/'
  let k := (slashPos + 1).toNat
  file.take k ++ ['.'] ++ file.drop k ++ ['.', '~'] ++ randHex

/-- Result of the temp-file selection at the top of
PropagateDownloadFile::start. -/
structure TmpSelectResult where
  tmpFileName : List Char
  staleTmpRemoved : Option (List Char)
  downloadInfoCleared : Bool
deriving DecidableEq, Repr

/-- Shallow embedding of the temp-file selection of
PropagateDownloadFile::start (owncloudpropagator.cpp 529-549): a valid
DownloadInfo whose etag differs from the item's etag has its temp file
removed and the record cleared; a matching one has its temp file reused;
otherwise a fresh hidden name is constructed. -/
def downloadTmpSelect (localDir : List Char) (item : SyncFileItem)
    (randHex : List Char) (progressInfo : DownloadInfo) : TmpSelectResult :=
  if progressInfo.valid then
    if progressInfo.etag ≠ item.etag then
      { tmpFileName := mkFreshTmpName item.file randHex
      , staleTmpRemoved := some (localDir ++ progressInfo.tmpfile)
      , downloadInfoCleared := true }
    else
      { tmpFileName := progressInfo.tmpfile
      , staleTmpRemoved := none
      , downloadInfoCleared := false }
  else
    { tmpFileName := mkFreshTmpName item.file randHex
    , staleTmpRemoved := none
    , downloadInfoCleared := false }

/-- The Range header value "bytes=<n>-" built by ne_snprintf at line 582. -/
def rangeHeaderValue (n : Nat) : List Char :=
  "bytes=".data ++ Nat.toDigits 10 n ++ "-".data

/-- Range header attached to a GET request given the current temp file size
(owncloudpropagator.cpp 580-585): present exactly when the size is
non-zero. -/
def requestRange (tmpSize : Nat) : Option (List Char) :=
  if tmpSize > 0 then some (rangeHeaderValue tmpSize) else none

/-- neon result codes distinguished by updateErrorFromSession. -/
inductive NeonCode where
  | NE_OK | NE_ERROR | NE_LOOKUP | NE_AUTH | NE_PROXYAUTH | NE_CONNECT
  | NE_TIMEOUT | NE_FAILED | NE_RETRY | NE_REDIRECT
deriving DecidableEq, Repr

/-- ne_status: HTTP status class, code and reason phrase. -/
structure NeStatus where
  klass : Nat
  code : Nat
  reasonPhrase : List Char
deriving DecidableEq, Repr

def digitsToNat (s : List Char) : Nat :=
  s.foldl (fun a c => a * 10 + (c.toNat - 48)) 0

/-- QString::toInt semantics on the whole string: optional leading minus then
digits only, anything else gives 0. -/
def qstringToInt (s : List Char) : Int :=
  match s with
  | [] => 0
  | '-' :: rest =>
    if rest ≠ [] ∧ rest.all Char.isDigit then -(digitsToNat rest : Int) else 0
  | _ => if s.all Char.isDigit then (digitsToNat s : Int) else 0

/-- errorString.mid(0, errorString.indexOf(' ')): the text before the first
space, the whole string when it has no space. -/
def untilFirstSpace (s : List Char) : List Char :=
  s.takeWhile (fun c => c ≠ ' ')

/-- Shallow embedding of PropagateItemJob::updateErrorFromSession
(owncloudpropagator.cpp 748-806).  none models the C++ function returning
false (no error); some (status, message) models done(status, message) plus a
true return.  The req argument is the ne_request when one was passed; the
NE_OK branch with a request assumes ne_get_status yields a status, as it does
for a dispatched request. -/
def updateErrorFromSession (neonCode : NeonCode) (req : Option NeStatus)
    (ignoreHttpCode : Nat) (sessionError : List Char) :
    Option (SyncStatus × List Char) :=
  match neonCode with
  | NeonCode.NE_OK =>
    match req with
    | some status =>
      if status.klass = 2 ∨ status.code = ignoreHttpCode then none
      else some (SyncStatus.NormalError, status.reasonPhrase)
    | none =>
      let errorString := sessionError
      let httpStatusCode := qstringToInt (untilFirstSpace errorString)
      if (200 ≤ httpStatusCode ∧ httpStatusCode < 300)
          ∨ (httpStatusCode ≠ 0 ∧ httpStatusCode = (ignoreHttpCode : Int)) then
        none
      else some (SyncStatus.NormalError, errorString)
  | NeonCode.NE_ERROR =>
    if ignoreHttpCode ≠ 0
        ∧ qstringToInt (untilFirstSpace sessionError) = (ignoreHttpCode : Int) then
      none
    else some (SyncStatus.NormalError, sessionError)
  | NeonCode.NE_LOOKUP => some (SyncStatus.FatalError, sessionError)
  | NeonCode.NE_AUTH => some (SyncStatus.FatalError, sessionError)
  | NeonCode.NE_PROXYAUTH => some (SyncStatus.FatalError, sessionError)
  | NeonCode.NE_CONNECT => some (SyncStatus.FatalError, sessionError)
  | NeonCode.NE_TIMEOUT => some (SyncStatus.FatalError, sessionError)
  | _ => some (SyncStatus.SoftError, sessionError)

/-- One ne_request_dispatch of the download GET loop: its neon result code,
the request's HTTP status and the number of body bytes the content reader
appended to the temp file during it. -/
structure GetAttempt where
  neon : NeonCode
  httpStatus : NeStatus
  bytesWritten : Nat
deriving DecidableEq, Repr

/-- How the GET loop exits. -/
inductive GetExit where
  | errorExit (st : SyncStatus) (msg : List Char)
      (tmpFileRemoved : Bool) (downloadInfoCleared : Bool)
  | successExit
  | noMoreAttempts
deriving DecidableEq, Repr

structure GetLoopResult where
  dispatches : Nat
  ranges : List (Option (List Char))
  finalTmpSize : Nat
  exit : GetExit
deriving DecidableEq, Repr

/-- Shallow embedding of the GET retry loop of PropagateDownloadFile::start
(owncloudpropagator.cpp 574-618).  retry is the C++ counter: a timeout with
(++retry) < 3 loops again; any other outcome is classified through
updateErrorFromSession (req present, ignore code 0).  On an error exit with
the temp file empty, the temp file is removed and the DownloadInfo record
cleared (lines 606-614).  noMoreAttempts is a modelling artefact for
exhausting the finite attempt list. -/
def getRequestLoop (sessionError : List Char) :
    Nat → Nat → List GetAttempt → GetLoopResult
  | _, tmpSize, [] =>
    { dispatches := 0, ranges := [], finalTmpSize := tmpSize
    , exit := GetExit.noMoreAttempts }
  | retry, tmpSize, a :: rest =>
    let range := requestRange tmpSize
    let newSize := tmpSize + a.bytesWritten
    if a.neon = NeonCode.NE_TIMEOUT ∧ retry + 1 < 3 then
      let r := getRequestLoop sessionError (retry + 1) newSize rest
      { dispatches := r.dispatches + 1, ranges := range :: r.ranges
      , finalTmpSize := r.finalTmpSize, exit := r.exit }
    else
      match updateErrorFromSession a.neon (some a.httpStatus) 0 sessionError with
      | some (st, msg) =>
        { dispatches := 1, ranges := [range], finalTmpSize := newSize
        , exit := GetExit.errorExit st msg (newSize == 0) (newSize == 0) }
      | none =>
        { dispatches := 1, ranges := [range], finalTmpSize := newSize
        , exit := GetExit.successExit }

/-- fileEquals (owncloudpropagator.cpp 70-99): false when either file fails
to open; otherwise the sizes are compared and then the contents in 16 KiB
chunks, which on byte lists amounts to content equality. -/
def fileEquals : Option (List Nat) → Option (List Nat) → Bool
  | some a, some b => if a.length ≠ b.length then false else a == b
  | _, _ => false

/-- The conflict backup name (owncloudpropagator.cpp 630-636): insert
"_conflict-" ++ stamp before the last dot; when the last dot is absent or
lies in a directory component the suffix goes at the very end. -/
def conflictFileName (fn : List Char) (stamp : List Char) : List Char :=
  let dotLocation := lastIndexOfC fn '.'
  let dot :=
    if dotLocation ≤ lastIndexOfC fn '/' + 1 then (fn.length : Int)
    else dotLocation
  let d := dot.toNat
  fn.take d ++ "_conflict-".data ++ stamp ++ fn.drop d

/-- Outcome of the post-GET phase of a download. -/
structure FinishResult where
  status : SyncStatus
  backupName : Option (List Char)
  fileRecordWritten : Bool
  downloadInfoCleared : Bool
  published : Bool
deriving DecidableEq, Repr

/-- Publication tail of PropagateDownloadFile::start (644-684):
overwrite-rename of the temp file onto the destination, then FileRecord
write, DownloadInfo clear and done(Conflict or Success). -/
def finishPublish (isConflict : Bool) (backup : Option (List Char))
    (publishRenameOk : Bool) : FinishResult :=
  if !publishRenameOk then
    { status := SyncStatus.NormalError, backupName := backup
    , fileRecordWritten := false, downloadInfoCleared := false
    , published := false }
  else
    { status := if isConflict then SyncStatus.Conflict else SyncStatus.Success
    , backupName := backup
    , fileRecordWritten := true, downloadInfoCleared := true
    , published := true }

/-- Shallow embedding of the post-GET phase of PropagateDownloadFile::start
(owncloudpropagator.cpp 620-685): a CONFLICT item is a real conflict only
when the destination and the temp file differ byte for byte; a real conflict
first renames the old file to the conflict backup name (failing that, the job
ends NormalError), then the temp file is published. -/
def downloadFinishPhase (instr : SyncInstruction) (fn : List Char)
    (stamp : List Char) (localContent tmpContent : Option (List Nat))
    (conflictRenameOk publishRenameOk : Bool) : FinishResult :=
  let isConflict := instr == SyncInstruction.CONFLICT
      && !(fileEquals localContent tmpContent)
  if isConflict then
    if !conflictRenameOk then
      { status := SyncStatus.NormalError, backupName := none
      , fileRecordWritten := false, downloadInfoCleared := false
      , published := false }
    else
      finishPublish true (some (conflictFileName fn stamp)) publishRenameOk
  else
    finishPublish false none publishRenameOk

/-- httpbf outcome of one whole-transfer attempt (hbf_splitlist and
hbf_transfer merged into one state, as both feed the same error handling). -/
inductive HbfState where
  | success | sourceFileChange | fail
deriving DecidableEq, Repr

/-- Outcome of PropagateUploadFile::start, tracking whether the session
notifier installed with ne_set_notifier is still installed when the job
exits. -/
inductive UploadOutcome where
  | finished (st : SyncStatus) (notifierInstalledAtExit : Bool)
  | noMoreAttempts
deriving DecidableEq, Repr

/-- Shallow embedding of the retry loop of PropagateUploadFile::start
(owncloudpropagator.cpp 259-346) restricted to the notifier lifecycle:
ne_set_notifier(session, notify_status_cb, this) runs at line 277 in every
iteration; ne_set_notifier(session, 0, 0) at line 331 is reached only when
the hbf transfer succeeded, so the error return at lines 315-329 leaves the
notifier installed.  attempts++ < 30 gates the source-file-change retry. -/
def uploadLoop : Nat → List HbfState → UploadOutcome
  | _, [] => UploadOutcome.noMoreAttempts
  | attempts, st :: rest =>
    -- ne_set_notifier(session, notify_status_cb, this): installed
    if st ≠ HbfState.success then
      if st = HbfState.sourceFileChange ∧ attempts < 30 then
        uploadLoop (attempts + 1) rest
      else
        UploadOutcome.finished SyncStatus.NormalError true
    else
      -- ne_set_notifier(session, 0, 0): removed before the success epilogue
      UploadOutcome.finished SyncStatus.Success false

/-- PropagateUploadFile::start: an open failure exits before any notifier is
installed; otherwise the chunked-transfer loop runs. -/
def propagateUploadFile_start (openOk : Bool) (outcomes : List HbfState) :
    UploadOutcome :=
  if !openOk then UploadOutcome.finished SyncStatus.NormalError false
  else uploadLoop 0 outcomes

/-- A GET attempt that times out writing nothing. -/
def timeoutAttempt : GetAttempt :=
  { neon := NeonCode.NE_TIMEOUT
  , httpStatus := { klass := 5, code := 0, reasonPhrase := [] }
  , bytesWritten := 0 }

/-- A GET attempt failing with a generic transport error, writing nothing. -/
def failAttempt : GetAttempt :=
  { neon := NeonCode.NE_ERROR
  , httpStatus := { klass := 5, code := 500, reasonPhrase := [] }
  , bytesWritten := 0 }

/-- A stale valid DownloadInfo (etag differing from the item's). -/
def dlInfoStale : DownloadInfo :=
  { valid := true, etag := "AAA".data, tmpfile := ".x.~1a".data }

/-- A plain SYNC download item. -/
def dlItem : SyncFileItem :=
  { file := "x".data
  , originalFile := "x".data
  , renameTarget := []
  , dir := SyncDirection.Down
  , instruction := SyncInstruction.SYNC
  , isDirectory := false
  , size := 7
  , modtime := 0
  , etag := "BBB".data
  , fileId := [] }

/-- Leaf job classes of the propagator. -/
inductive JobKind where
  | LocalRemove | RemoteRemove | LocalMkdir | RemoteMkdir
  | DownloadFile | UploadFile | RemoteRename | LocalRename | IgnoreJob
deriving DecidableEq, Repr

/-- OwncloudPropagator::createJob (owncloudpropagator.cpp 808-838); none
models the null job pointer (directory SYNC/CONFLICT items and unknown
instructions).  A non-directory NEW falls through to the SYNC/CONFLICT
case. -/
def createJob (item : SyncFileItem) : Option JobKind :=
  match item.instruction with
  | SyncInstruction.REMOVE =>
    if item.dir = SyncDirection.Down then some JobKind.LocalRemove
    else some JobKind.RemoteRemove
  | SyncInstruction.NEW =>
    if item.isDirectory then
      if item.dir = SyncDirection.Down then some JobKind.LocalMkdir
      else some JobKind.RemoteMkdir
    else
      if item.dir ≠ SyncDirection.Up then some JobKind.DownloadFile
      else some JobKind.UploadFile
  | SyncInstruction.SYNC | SyncInstruction.CONFLICT =>
    if item.isDirectory then none
    else
      if item.dir ≠ SyncDirection.Up then some JobKind.DownloadFile
      else some JobKind.UploadFile
  | SyncInstruction.RENAME =>
    if item.dir = SyncDirection.Up then some JobKind.RemoteRename
    else some JobKind.LocalRename
  | SyncInstruction.IGNORE => some JobKind.IgnoreJob
  | _ => none

/-- The job tree built by OwncloudPropagator::start: leaves are
PropagateItemJob instances, inner nodes are PropagateDirectory jobs with an
optional item, an optional firstJob (always a leaf created by createJob for
the directory's own item) and an ordered list of sub jobs. -/
inductive PropagatorJob where
  | itemJob (kind : JobKind) (it : SyncFileItem)
  | directoryJob (it : Option SyncFileItem)
      (firstJob : Option (JobKind × SyncFileItem))
      (subJobs : List PropagatorJob)
deriving Repr

/-- An entry of the directories stack: the directory-name prefix string, the
PropagateDirectory job under construction (item, firstJob, children so far)
and whether the job was routed to directoriesToRemove instead of being
appended to its parent (directory instruction REMOVE). -/
structure OpenDir where
  dirName : List Char
  item : Option SyncFileItem
  firstJob : Option (JobKind × SyncFileItem)
  subJobs : List PropagatorJob
  isRemove : Bool

/-- Close a stack entry into its PropagateDirectory job. -/
def closeDir (e : OpenDir) : PropagatorJob :=
  PropagatorJob.directoryJob e.item e.firstJob e.subJobs

/-- State of the tree-building loop of OwncloudPropagator::start: the stack
of open directories (head = top, base = the root entry), the completed
deferred directory-removal jobs, and removedDirectory.

In the C++ code a directory job is appended to its parent (or to
directoriesToRemove) when it is created and receives its children in place
through the stack.  Functionally the append happens here when the entry is
popped instead; this preserves sibling order because nothing can be appended
to a parent while one of its directories is open, and it preserves the order
of directoriesToRemove because at most one deferred directory is ever on the
stack (a directory REMOVE that does not extend removedDirectory pops the
earlier deferred entry before being pushed, and one that does extend it is
skipped). -/
structure BuildState where
  stack : List OpenDir
  directoriesToRemove : List PropagatorJob
  removedDirectory : List Char

/-- The pop-while loop (owncloudpropagator.cpp 860-862): pop entries whose
name the item's path does not start with, folding each closed job into its
parent (or into directoriesToRemove for a deferred directory).  A closed
non-deferred job destined for the next entry down is carried in `pending`
(it is appended to that entry's subJobs when the entry is reached), which
keeps the recursion structural; the call starts with pending = [].  The root
entry (empty name) is never popped; the [] case is unreachable. -/
def popWhile (file : List Char) : List OpenDir → List PropagatorJob →
    List PropagatorJob → List OpenDir × List PropagatorJob
  | [], _, toRemove => ([], toRemove)
  | e :: rest, pending, toRemove =>
    let e' := { e with subJobs := e.subJobs ++ pending }
    if e'.dirName.isPrefixOf file then (e' :: rest, toRemove)
    else
      if e'.isRemove then popWhile file rest [] (toRemove ++ [closeDir e'])
      else popWhile file rest [closeDir e'] toRemove

/-- Drain the stack when the loop is over, folding every remaining open
directory into its parent (or into directoriesToRemove) down to the root
entry, whose accumulated children are returned; `pending` plays the same
role as in popWhile.  The [] case is unreachable. -/
def drainStack : List OpenDir → List PropagatorJob → List PropagatorJob →
    List PropagatorJob × List PropagatorJob
  | [], pending, toRemove => (pending, toRemove)
  | [root], pending, toRemove => (root.subJobs ++ pending, toRemove)
  | e :: p :: ps, pending, toRemove =>
    let e' := { e with subJobs := e.subJobs ++ pending }
    if e'.isRemove then drainStack (p :: ps) [] (toRemove ++ [closeDir e'])
    else drainStack (p :: ps) [closeDir e'] toRemove

/-- The skip test (owncloudpropagator.cpp 854-858): a REMOVE item whose path
starts with the recorded removedDirectory is already taken care of by the
removal of that ancestor. -/
def itemIsSkipped (st : BuildState) (item : SyncFileItem) : Bool :=
  item.instruction == SyncInstruction.REMOVE
    && !st.removedDirectory.isEmpty
    && st.removedDirectory.isPrefixOf item.file

/-- One iteration of the foreach loop of OwncloudPropagator::start
(owncloudpropagator.cpp 853-878): skip test, pop-while, then either push a
directory entry (recording a REMOVE directory in removedDirectory and
deferring its job) or append the created leaf job to the stack top. -/
def processItem (st : BuildState) (item : SyncFileItem) : BuildState :=
  if itemIsSkipped st item then st
  else
    let pr := popWhile item.file st.stack [] st.directoriesToRemove
    let stack1 := pr.1
    let toRemove1 := pr.2
    if item.isDirectory then
      let newDir : OpenDir :=
        { dirName := item.file ++ ['/']
        , item := some item
        , firstJob := (createJob item).map (fun k => (k, item))
        , subJobs := []
        , isRemove := item.instruction == SyncInstruction.REMOVE }
      if item.instruction == SyncInstruction.REMOVE then
        { stack := newDir :: stack1, directoriesToRemove := toRemove1
        , removedDirectory := item.file ++ ['/'] }
      else
        { stack := newDir :: stack1, directoriesToRemove := toRemove1
        , removedDirectory := st.removedDirectory }
    else
      match createJob item with
      | some k =>
        match stack1 with
        | [] =>
          { stack := [], directoriesToRemove := toRemove1
          , removedDirectory := st.removedDirectory }
        | top :: rest =>
          { stack :=
              { top with
                  subJobs := top.subJobs ++ [PropagatorJob.itemJob k item] }
                :: rest
          , directoriesToRemove := toRemove1
          , removedDirectory := st.removedDirectory }
      | none =>
        { stack := stack1, directoriesToRemove := toRemove1
        , removedDirectory := st.removedDirectory }

/-- Initial state: the root PropagateDirectory under the empty name. -/
def initBuildState : BuildState :=
  { stack := [{ dirName := [], item := none, firstJob := none
              , subJobs := [], isRemove := false }]
  , directoriesToRemove := []
  , removedDirectory := [] }

/-- Shallow embedding of the tree-building phase of OwncloudPropagator::start
(owncloudpropagator.cpp 840-882) on the sorted item list: the returned root
directory job carries the loop-built children followed by the deferred
directory removals. -/
def propagatorStart (items : List SyncFileItem) : PropagatorJob :=
  let st := items.foldl processItem initBuildState
  let r := drainStack st.stack [] st.directoriesToRemove
  PropagatorJob.directoryJob none none (r.1 ++ r.2)

/-- Direct children of the root of a built job tree. -/
def rootChildren : PropagatorJob → List PropagatorJob
  | PropagatorJob.directoryJob _ _ subs => subs
  | _ => []

/-- Does an optional item carry instruction REMOVE (a deferred directory)? -/
def dirEntryRemove : Option SyncFileItem → Bool
  | none => false
  | some it => it.instruction == SyncInstruction.REMOVE

/-- The top node of a job is a directory-REMOVE job. -/
def isDirRemoveJob : PropagatorJob → Bool
  | PropagatorJob.directoryJob it _ _ => dirEntryRemove it
  | _ => false

mutual
/-- No directory-REMOVE job anywhere in the tree. -/
def treeClean : PropagatorJob → Bool
  | PropagatorJob.itemJob _ _ => true
  | PropagatorJob.directoryJob it _ subs => !dirEntryRemove it && listClean subs
/-- No directory-REMOVE job anywhere in a forest. -/
def listClean : List PropagatorJob → Bool
  | [] => true
  | j :: js => treeClean j && listClean js
end

/-- A deferred directory-removal job: a directory job whose item is a
directory with instruction REMOVE, and whose own subtree holds no further
directory-REMOVE job. -/
def deferredShape : PropagatorJob → Bool
  | PropagatorJob.directoryJob (some it) _ subs =>
    it.isDirectory && (it.instruction == SyncInstruction.REMOVE)
      && listClean subs
  | _ => false

/-- Invariant of a stack entry: children accumulated so far are clean, the
isRemove flag matches the entry's item, and a non-root entry wraps a
directory item. -/
def entryInv (e : OpenDir) : Prop :=
  listClean e.subJobs = true
  ∧ e.isRemove = dirEntryRemove e.item
  ∧ ∀ it, e.item = some it → it.isDirectory = true

/-- Invariant of the build state. -/
def stateInv (st : BuildState) : Prop :=
  (∀ e ∈ st.stack, entryInv e)
  ∧ ∀ j ∈ st.directoriesToRemove, deferredShape j = true

/-- Strict lexicographic byte order on paths: the sort order used by
std::sort in OwncloudPropagator::start (SyncFileItem sorts by destination
path). -/
def pathLt : List Char → List Char → Bool
  | [], [] => false
  | [], _ :: _ => true
  | _ :: _, [] => false
  | a :: as, b :: bs => if a = b then pathLt as bs else decide (a < b)

/-- The item sequence is strictly sorted by path. -/
def sortedByPath : List SyncFileItem → Bool
  | [] => true
  | [_] => true
  | a :: b :: rest => pathLt a.file b.file && sortedByPath (b :: rest)

/-- A directory item with instruction REMOVE at the given path. -/
def remDirItem (p : List Char) : SyncFileItem :=
  { file := p, originalFile := p, renameTarget := []
  , dir := SyncDirection.Down, instruction := SyncInstruction.REMOVE
  , isDirectory := true, size := 0, modtime := 0, etag := [], fileId := [] }

/-- A file item with instruction REMOVE at the given path. -/
def remFileItem (p : List Char) : SyncFileItem :=
  { file := p, originalFile := p, renameTarget := []
  , dir := SyncDirection.Down, instruction := SyncInstruction.REMOVE
  , isDirectory := false, size := 0, modtime := 0, etag := [], fileId := [] }

/-- Sorted input refuting C2 as stated: remove directory "d", remove sibling
directory "d!z" (whose name sorts between "d" and "d/"), remove file "d/c"
which lies under the removed directory "d". -/
def cexItems : List SyncFileItem :=
  [remDirItem ("d").data, remDirItem ("d!z").data, remFileItem ("d/c").data]

/-- Unfolding of popWhile on a non-empty stack. -/
theorem popWhile_cons (file : List Char) (e : OpenDir) (rest : List OpenDir)
    (pending toRemove : List PropagatorJob) :
    popWhile file (e :: rest) pending toRemove
      = (if e.dirName.isPrefixOf file then
          ({ e with subJobs := e.subJobs ++ pending } :: rest, toRemove)
        else if e.isRemove then
          popWhile file rest []
            (toRemove ++ [closeDir { e with subJobs := e.subJobs ++ pending }])
        else
          popWhile file rest
            [closeDir { e with subJobs := e.subJobs ++ pending }] toRemove) := rfl

/-- Unfolding of drainStack on a stack of two or more entries. -/
theorem drainStack_cons (e p : OpenDir) (ps : List OpenDir)
    (pending toRemove : List PropagatorJob) :
    drainStack (e :: p :: ps) pending toRemove
      = (if e.isRemove then
          drainStack (p :: ps) []
            (toRemove ++ [closeDir { e with subJobs := e.subJobs ++ pending }])
        else
          drainStack (p :: ps)
            [closeDir { e with subJobs := e.subJobs ++ pending }] toRemove) := rfl

theorem isPrefixOf_self (l : List Char) : l.isPrefixOf l = true := by
  induction l with
  | nil => rfl
  | cons a as ih =>
    simp only [List.isPrefixOf, Bool.and_eq_true, beq_iff_eq]
    exact ⟨trivial, ih⟩

theorem isPrefixOf_extend (r a b : List Char) (h : r.isPrefixOf a = true) :
    r.isPrefixOf (a ++ b) = true := by
  induction r generalizing a with
  | nil => simp [List.isPrefixOf]
  | cons x xs ih =>
    cases a with
    | nil => simp [List.isPrefixOf] at h
    | cons y ys =>
      simp only [List.isPrefixOf, Bool.and_eq_true, beq_iff_eq] at h
      simp only [List.cons_append, List.isPrefixOf, Bool.and_eq_true, beq_iff_eq]
      exact ⟨h.1, ih ys h.2⟩

theorem isPrefixOf_trans_chars {a b c : List Char}
    (h1 : a.isPrefixOf b = true) (h2 : b.isPrefixOf c = true) :
    a.isPrefixOf c = true := by
  induction a generalizing b c with
  | nil => simp [List.isPrefixOf]
  | cons x xs ih =>
    cases b with
    | nil => simp [List.isPrefixOf] at h1
    | cons y ys =>
      cases c with
      | nil => simp [List.isPrefixOf] at h2
      | cons z zs =>
        simp only [List.isPrefixOf, Bool.and_eq_true, beq_iff_eq] at h1 h2 ⊢
        obtain ⟨hxy, h1a⟩ := h1
        obtain ⟨hyz, h2a⟩ := h2
        exact ⟨hxy.trans hyz, ih h1a h2a⟩

theorem listClean_append (l1 l2 : List PropagatorJob) :
    listClean (l1 ++ l2) = (listClean l1 && listClean l2) := by
  induction l1 with
  | nil => simp [listClean]
  | cons j js ih => simp [listClean, ih, Bool.and_assoc]

/-- Closing a deferred stack entry yields a deferred directory-removal job. -/
theorem closeDir_deferred (e : OpenDir) (he : entryInv e)
    (hr : e.isRemove = true) : deferredShape (closeDir e) = true := by
  obtain ⟨h1, h2, h3⟩ := he
  rw [hr] at h2
  cases hi : e.item with
  | none => rw [hi] at h2; simp [dirEntryRemove] at h2
  | some it =>
    rw [hi] at h2
    simp only [dirEntryRemove] at h2
    simp [closeDir, deferredShape, hi, h3 it hi, ← h2, h1]

/-- Closing a non-deferred stack entry yields a clean tree. -/
theorem closeDir_clean (e : OpenDir) (he : entryInv e)
    (hr : e.isRemove = false) : treeClean (closeDir e) = true := by
  obtain ⟨h1, h2, h3⟩ := he
  rw [hr] at h2
  simp [closeDir, treeClean, ← h2, h1]

theorem entryInv_merge (e : OpenDir) (pending : List PropagatorJob)
    (he : entryInv e) (hp : listClean pending = true) :
    entryInv { e with subJobs := e.subJobs ++ pending } := by
  obtain ⟨h1, h2, h3⟩ := he
  refine ⟨?_, h2, h3⟩
  rw [listClean_append, h1, hp]
  rfl

/-- popWhile preserves the stack and directoriesToRemove invariants. -/
theorem popWhile_inv (file : List Char) (stack : List OpenDir)
    (pending toRemove : List PropagatorJob)
    (hs : ∀ e ∈ stack, entryInv e)
    (hp : listClean pending = true)
    (ht : ∀ j ∈ toRemove, deferredShape j = true) :
    (∀ e ∈ (popWhile file stack pending toRemove).1, entryInv e)
    ∧ (∀ j ∈ (popWhile file stack pending toRemove).2, deferredShape j = true) := by
  induction stack generalizing pending toRemove with
  | nil => simpa [popWhile] using ht
  | cons e rest ih =>
    have hme : entryInv { e with subJobs := e.subJobs ++ pending } :=
      entryInv_merge e pending (hs e (List.mem_cons_self _ _)) hp
    have hrest : ∀ x ∈ rest, entryInv x :=
      fun x hx => hs x (List.mem_cons_of_mem _ hx)
    by_cases hpre : e.dirName.isPrefixOf file = true
    · rw [popWhile_cons, if_pos hpre]
      refine ⟨?_, ht⟩
      intro x hx
      rcases List.mem_cons.mp hx with rfl | hx'
      · exact hme
      · exact hrest x hx'
    · rw [popWhile_cons, if_neg hpre]
      by_cases hrem : e.isRemove = true
      · rw [if_pos hrem]
        refine ih _ _ hrest rfl ?_
        intro j hj
        rcases List.mem_append.mp hj with hj' | hj'
        · exact ht j hj'
        · rcases List.mem_singleton.mp hj' with rfl
          exact closeDir_deferred _ hme hrem
      · rw [if_neg hrem]
        refine ih _ _ hrest ?_ ht
        have hc := closeDir_clean _ hme (by simpa using hrem)
        simp [listClean, hc]

/-- drainStack preserves cleanliness of the root children and the shape of
directoriesToRemove. -/
theorem drainStack_inv (stack : List OpenDir)
    (pending toRemove : List PropagatorJob)
    (hs : ∀ e ∈ stack, entryInv e)
    (hp : listClean pending = true)
    (ht : ∀ j ∈ toRemove, deferredShape j = true) :
    listClean (drainStack stack pending toRemove).1 = true
    ∧ (∀ j ∈ (drainStack stack pending toRemove).2, deferredShape j = true) := by
  induction stack generalizing pending toRemove with
  | nil => exact ⟨hp, by simpa [drainStack] using ht⟩
  | cons e rest ih =>
    cases rest with
    | nil =>
      refine ⟨?_, ht⟩
      show listClean (e.subJobs ++ pending) = true
      rw [listClean_append, (hs e (List.mem_cons_self _ _)).1, hp]
      rfl
    | cons p ps =>
      have hme : entryInv { e with subJobs := e.subJobs ++ pending } :=
        entryInv_merge e pending (hs e (List.mem_cons_self _ _)) hp
      have hrest : ∀ x ∈ p :: ps, entryInv x :=
        fun x hx => hs x (List.mem_cons_of_mem _ hx)
      by_cases hrem : e.isRemove = true
      · rw [drainStack_cons, if_pos hrem]
        refine ih _ _ hrest rfl ?_
        intro j hj
        rcases List.mem_append.mp hj with hj' | hj'
        · exact ht j hj'
        · rcases List.mem_singleton.mp hj' with rfl
          exact closeDir_deferred _ hme hrem
      · rw [drainStack_cons, if_neg hrem]
        refine ih _ _ hrest ?_ ht
        have hc := closeDir_clean _ hme (by simpa using hrem)
        simp [listClean, hc]

/-- Unfolding of processItem (its let bindings zeta-reduced). -/
theorem processItem_eq (st : BuildState) (item : SyncFileItem) :
    processItem st item
      = if itemIsSkipped st item then st
        else
          if item.isDirectory then
            if item.instruction == SyncInstruction.REMOVE then
              { stack :=
                  { dirName := item.file ++ ['/'], item := some item
                  , firstJob := (createJob item).map (fun k => (k, item))
                  , subJobs := []
                  , isRemove := item.instruction == SyncInstruction.REMOVE }
                  :: (popWhile item.file st.stack [] st.directoriesToRemove).1
              , directoriesToRemove :=
                  (popWhile item.file st.stack [] st.directoriesToRemove).2
              , removedDirectory := item.file ++ ['/'] }
            else
              { stack :=
                  { dirName := item.file ++ ['/'], item := some item
                  , firstJob := (createJob item).map (fun k => (k, item))
                  , subJobs := []
                  , isRemove := item.instruction == SyncInstruction.REMOVE }
                  :: (popWhile item.file st.stack [] st.directoriesToRemove).1
              , directoriesToRemove :=
                  (popWhile item.file st.stack [] st.directoriesToRemove).2
              , removedDirectory := st.removedDirectory }
          else
            match createJob item with
            | some k =>
              match (popWhile item.file st.stack [] st.directoriesToRemove).1 with
              | [] =>
                { stack := []
                , directoriesToRemove :=
                    (popWhile item.file st.stack [] st.directoriesToRemove).2
                , removedDirectory := st.removedDirectory }
              | top :: rest =>
                { stack :=
                    { top with
                        subJobs := top.subJobs ++ [PropagatorJob.itemJob k item] }
                      :: rest
                , directoriesToRemove :=
                    (popWhile item.file st.stack [] st.directoriesToRemove).2
                , removedDirectory := st.removedDirectory }
            | none =>
              { stack := (popWhile item.file st.stack [] st.directoriesToRemove).1
              , directoriesToRemove :=
                  (popWhile item.file st.stack [] st.directoriesToRemove).2
              , removedDirectory := st.removedDirectory } := rfl

theorem stateInv_processItem (st : BuildState) (item : SyncFileItem)
    (h : stateInv st) : stateInv (processItem st item) := by
  obtain ⟨hs, ht⟩ := h
  by_cases hsk : itemIsSkipped st item = true
  · rw [processItem_eq, if_pos hsk]; exact ⟨hs, ht⟩
  · have hpw := popWhile_inv item.file st.stack [] st.directoriesToRemove hs rfl ht
    rw [processItem_eq, if_neg hsk]
    by_cases hdir : item.isDirectory = true
    · rw [if_pos hdir]
      have hnew : entryInv
          { dirName := item.file ++ ['/'], item := some item
          , firstJob := (createJob item).map (fun k => (k, item))
          , subJobs := []
          , isRemove := item.instruction == SyncInstruction.REMOVE } :=
        ⟨rfl, rfl, fun it hit => by cases hit; exact hdir⟩
      by_cases hrem : (item.instruction == SyncInstruction.REMOVE) = true
      · rw [if_pos hrem]
        refine ⟨?_, hpw.2⟩
        intro x hx
        rcases List.mem_cons.mp hx with rfl | hx'
        · exact hnew
        · exact hpw.1 x hx'
      · rw [if_neg hrem]
        refine ⟨?_, hpw.2⟩
        intro x hx
        rcases List.mem_cons.mp hx with rfl | hx'
        · exact hnew
        · exact hpw.1 x hx'
    · rw [if_neg hdir]
      rcases hcj : createJob item with _ | k
      · simp only [hcj]
        exact ⟨hpw.1, hpw.2⟩
      · simp only [hcj]
        rcases hq : (popWhile item.file st.stack [] st.directoriesToRemove).1
            with _ | ⟨top, rest⟩
        · simp only [hq]
          exact ⟨fun x hx => absurd hx (List.not_mem_nil x), hpw.2⟩
        · simp only [hq]
          have hpw1 := hpw.1
          rw [hq] at hpw1
          refine ⟨?_, hpw.2⟩
          intro x hx
          rcases List.mem_cons.mp hx with rfl | hx'
          · obtain ⟨t1, t2, t3⟩ := hpw1 top (List.mem_cons_self _ _)
            refine ⟨?_, t2, t3⟩
            rw [listClean_append, t1]
            simp [listClean, treeClean]
          · exact hpw1 x (List.mem_cons_of_mem _ hx')

theorem stateInv_foldl (items : List SyncFileItem) (st : BuildState)
    (h : stateInv st) : stateInv (List.foldl processItem st items) := by
  induction items generalizing st with
  | nil => simpa using h
  | cons i is ih => exact ih _ (stateInv_processItem st i h)

theorem stateInv_init : stateInv initBuildState := by
  constructor
  · intro e he
    rcases List.mem_singleton.mp he with rfl
    exact ⟨rfl, rfl, fun it hit => by cases hit⟩
  · intro j hj
    cases hj

/-- The built tree splits its root children into a clean part followed by
the deferred directory removals. -/
theorem propagatorStart_split (items : List SyncFileItem) :
    ∃ a b, rootChildren (propagatorStart items) = a ++ b
      ∧ listClean a = true ∧ ∀ j ∈ b, deferredShape j = true := by
  obtain ⟨hs, ht⟩ := stateInv_foldl items initBuildState stateInv_init
  have hd := drainStack_inv (List.foldl processItem initBuildState items).stack
    [] (List.foldl processItem initBuildState items).directoriesToRemove hs rfl ht
  exact ⟨_, _, by simp [propagatorStart, rootChildren], hd.1, hd.2⟩

/-- processItem either keeps removedDirectory or, for a non-skipped
directory REMOVE, sets it to that directory's name. -/
theorem processItem_keeps_or_sets (st : BuildState) (m : SyncFileItem) :
    (processItem st m).removedDirectory = st.removedDirectory
    ∨ (itemIsSkipped st m = false ∧ m.isDirectory = true
        ∧ (m.instruction == SyncInstruction.REMOVE) = true
        ∧ (processItem st m).removedDirectory = m.file ++ ['/']) := by
  by_cases hsk : itemIsSkipped st m = true
  · left; rw [processItem_eq, if_pos hsk]
  · by_cases hdir : m.isDirectory = true
    · by_cases hrem : (m.instruction == SyncInstruction.REMOVE) = true
      · right
        refine ⟨by simpa using hsk, hdir, hrem, ?_⟩
        rw [processItem_eq, if_neg hsk, if_pos hdir, if_pos hrem]
      · left
        rw [processItem_eq, if_neg hsk, if_pos hdir, if_neg hrem]
    · left
      rw [processItem_eq, if_neg hsk, if_neg hdir]
      rcases hcj : createJob m with _ | k
      · simp only [hcj]
      · simp only [hcj]
        rcases hq : (popWhile m.file st.stack [] st.directoriesToRemove).1
            with _ | ⟨top, rest⟩
        · simp only [hq]
        · simp only [hq]

/-- After a directory-REMOVE item, removedDirectory is non-empty and covers
that directory's subtree. -/
theorem removedDirectory_after_dir_remove (d : SyncFileItem)
    (hd : d.isDirectory = true) (hdi : d.instruction = SyncInstruction.REMOVE)
    (st : BuildState) :
    (processItem st d).removedDirectory.isEmpty = false
    ∧ (processItem st d).removedDirectory.isPrefixOf (d.file ++ ['/']) = true := by
  by_cases hsk : itemIsSkipped st d = true
  · rw [processItem_eq, if_pos hsk]
    unfold itemIsSkipped at hsk
    simp only [Bool.and_eq_true] at hsk
    obtain ⟨⟨hi, hne⟩, hpre⟩ := hsk
    constructor
    · simpa using hne
    · exact isPrefixOf_extend _ _ _ hpre
  · have hrem : (d.instruction == SyncInstruction.REMOVE) = true := by simp [hdi]
    rw [processItem_eq, if_neg hsk, if_pos hd, if_pos hrem]
    constructor
    · show (d.file ++ ['/']).isEmpty = false
      cases d.file <;> rfl
    · exact isPrefixOf_self _

/-- An item whose directory-REMOVEs stay under d's subtree preserves the
removedDirectory coverage invariant. -/
theorem removedDirectory_step (d m : SyncFileItem) (st : BuildState)
    (hinv : st.removedDirectory.isEmpty = false
        ∧ st.removedDirectory.isPrefixOf (d.file ++ ['/']) = true)
    (hm : m.isDirectory = true → m.instruction = SyncInstruction.REMOVE →
        (d.file ++ ['/']).isPrefixOf m.file = true) :
    (processItem st m).removedDirectory.isEmpty = false
    ∧ (processItem st m).removedDirectory.isPrefixOf (d.file ++ ['/']) = true := by
  rcases processItem_keeps_or_sets st m with heq | ⟨hns, hdir, hrem, heq⟩
  · rw [heq]; exact hinv
  · exfalso
    have hrem' : m.instruction = SyncInstruction.REMOVE := by simpa using hrem
    have hx : (d.file ++ ['/']).isPrefixOf m.file = true := hm hdir hrem'
    have hskip : itemIsSkipped st m = true := by
      unfold itemIsSkipped
      simp [hrem, hinv.1, isPrefixOf_trans_chars hinv.2 hx]
    rw [hskip] at hns
    cases hns

theorem removedDirectory_fold (d : SyncFileItem) (mid : List SyncFileItem)
    (hmid : ∀ m ∈ mid, m.isDirectory = true →
        m.instruction = SyncInstruction.REMOVE →
        (d.file ++ ['/']).isPrefixOf m.file = true)
    (st : BuildState)
    (hinv : st.removedDirectory.isEmpty = false
        ∧ st.removedDirectory.isPrefixOf (d.file ++ ['/']) = true) :
    (List.foldl processItem st mid).removedDirectory.isEmpty = false
    ∧ (List.foldl processItem st mid).removedDirectory.isPrefixOf
        (d.file ++ ['/']) = true := by
  induction mid generalizing st with
  | nil => simpa using hinv
  | cons m ms ih =>
    simp only [List.foldl_cons]
    exact ih (fun x hx => hmid x (List.mem_cons_of_mem _ hx)) _
      (removedDirectory_step d m st hinv (hmid m (List.mem_cons_self _ _)))

/-- C2: COUNTEREXAMPLE to the claim as stated.  removedDirectory records
only the most recent removed directory, so in the sorted sequence
"d" (dir REMOVE), "d!z" (dir REMOVE), "d/c" (file REMOVE) the item "d/c" is
a REMOVE lying under the removed directory "d" and yet a LocalRemove job is
created for it (as a direct child of the root), because the sibling "d!z"
overwrote removedDirectory in between. -/
theorem claim_C2_counterexample :
    sortedByPath cexItems = true
    ∧ (remDirItem (("d").data)).isDirectory = true
    ∧ (remDirItem (("d").data)).instruction = SyncInstruction.REMOVE
    ∧ (remFileItem (("d/c").data)).instruction = SyncInstruction.REMOVE
    ∧ ((remDirItem (("d").data)).file ++ ['/']).isPrefixOf
        (remFileItem (("d/c").data)).file = true
    ∧ rootChildren (propagatorStart cexItems)
      = [PropagatorJob.itemJob JobKind.LocalRemove (remFileItem (("d/c").data)),
         PropagatorJob.directoryJob (some (remDirItem (("d").data)))
           (some (JobKind.LocalRemove, remDirItem (("d").data))) [],
         PropagatorJob.directoryJob (some (remDirItem (("d!z").data)))
           (some (JobKind.LocalRemove, remDirItem (("d!z").data))) []] := by
  exact ⟨by decide, by decide, by decide, by decide, by decide, rfl⟩

/-- C2 (amended): for every input, every directory-REMOVE job the scheduler
creates sits in the trailing segment of the root's children, after all other
children, and no directory-REMOVE job occurs anywhere else in the tree; and
the no-job skip rule holds for a REMOVE item under a removed directory
provided every directory-REMOVE between that directory and the item also
lies under it (the most-recent-removed-directory restriction the code
actually implements). -/
theorem claim_C2_amended (items pre mid : List SyncFileItem) (d x : SyncFileItem)
    (hd : d.isDirectory = true) (hdi : d.instruction = SyncInstruction.REMOVE)
    (hxi : x.instruction = SyncInstruction.REMOVE)
    (hux : (d.file ++ ['/']).isPrefixOf x.file = true)
    (hmid : ∀ m ∈ mid, m.isDirectory = true →
        m.instruction = SyncInstruction.REMOVE →
        (d.file ++ ['/']).isPrefixOf m.file = true) :
    (∃ a b, rootChildren (propagatorStart items) = a ++ b
      ∧ listClean a = true ∧ ∀ j ∈ b, deferredShape j = true)
    ∧ itemIsSkipped (List.foldl processItem initBuildState (pre ++ d :: mid)) x
        = true := by
  constructor
  · exact propagatorStart_split items
  · have h1 : List.foldl processItem initBuildState (pre ++ d :: mid)
        = List.foldl processItem
            (processItem (List.foldl processItem initBuildState pre) d) mid := by
      rw [List.foldl_append]
      rfl
    rw [h1]
    have h2 := removedDirectory_after_dir_remove d hd hdi
      (List.foldl processItem initBuildState pre)
    have h3 := removedDirectory_fold d mid hmid _ h2
    unfold itemIsSkipped
    simp [hxi, h3.1, isPrefixOf_trans_chars h3.2 hux]

/-- Witness for C2 (amended): the removal of "d" immediately followed by the
REMOVE item "d/c" skips the latter. -/
theorem claim_C2_amended_witness :
    (∃ a b, rootChildren (propagatorStart cexItems) = a ++ b
      ∧ listClean a = true ∧ ∀ j ∈ b, deferredShape j = true)
    ∧ itemIsSkipped
        (List.foldl processItem initBuildState
          ([] ++ remDirItem (("d").data) :: []))
        (remFileItem (("d/c").data)) = true :=
  claim_C2_amended cexItems [] [] (remDirItem (("d").data))
    (remFileItem (("d/c").data)) rfl rfl rfl (by decide)
    (fun m hm => absurd hm (List.not_mem_nil m))

/-- C1: the claim says every leaf job emits its finished status exactly once
per start().  The code violates this: PropagateLocalRemove::start on a
non-directory item whose QFile::remove fails calls done(NormalError) without
returning (unlike the directory branch) and falls through to done(Success),
emitting done twice. -/
theorem claim_C1_localRemove_emits_done_twice :
    propagateLocalRemove_start fileRemoveItem failingRemoveEnv
      = [JobEvent.done SyncStatus.NormalError,
         JobEvent.journalDeleteFileRecord fileRemoveItem.originalFile,
         JobEvent.done SyncStatus.Success]
    ∧ doneCount (propagateLocalRemove_start fileRemoveItem failingRemoveEnv) = 2 := by
  constructor <;> decide

/-- C8: the claim says the FileRecord is deleted only when the local deletion
succeeds and that on failure the journal is left unchanged.  The code violates
this: with the file deletion failing, the trace still contains the
deleteFileRecord journal write (and a spurious done(Success)) after
done(NormalError). -/
theorem claim_C8_localRemove_journal_deleted_despite_failure :
    JobEvent.journalDeleteFileRecord fileRemoveItem.originalFile
        ∈ propagateLocalRemove_start fileRemoveItem failingRemoveEnv
    ∧ JobEvent.done SyncStatus.NormalError
        ∈ propagateLocalRemove_start fileRemoveItem failingRemoveEnv
    ∧ JobEvent.done SyncStatus.Success
        ∈ propagateLocalRemove_start fileRemoveItem failingRemoveEnv := by
  refine ⟨?_, ?_, ?_⟩ <;> decide

/-- C10: PropagateLocalRename::start with path ≠ renameTarget produces the
same trace whatever the filesystem rename returned: it always deletes the old
FileRecord, writes the new one under renameTarget, and finishes Success.  The
rename result is never checked. -/
theorem claim_C10_localRename_ignores_rename_result
    (localDir : List Char) (item : SyncFileItem) (ok ok' : Bool)
    (h : item.file ≠ item.renameTarget) :
    propagateLocalRename_start localDir item ok
      = propagateLocalRename_start localDir item ok'
    ∧ propagateLocalRename_start localDir item ok
      = [JobEvent.fsRename (localDir ++ item.file) (localDir ++ item.renameTarget),
         JobEvent.journalDeleteFileRecord item.originalFile,
         JobEvent.journalSetFileRecord item.renameTarget,
         JobEvent.progressEvt ProgressKind.EndDownload item.file,
         JobEvent.done SyncStatus.Success] := by
  unfold propagateLocalRename_start
  simp [h]

/-- Witness for C10 at a concrete rename item. -/
theorem claim_C10_localRename_ignores_rename_result_witness :
    propagateLocalRename_start [] renameItem true
      = propagateLocalRename_start [] renameItem false
    ∧ propagateLocalRename_start [] renameItem true
      = [JobEvent.fsRename ([] ++ renameItem.file) ([] ++ renameItem.renameTarget),
         JobEvent.journalDeleteFileRecord renameItem.originalFile,
         JobEvent.journalSetFileRecord renameItem.renameTarget,
         JobEvent.progressEvt ProgressKind.EndDownload renameItem.file,
         JobEvent.done SyncStatus.Success] :=
  claim_C10_localRename_ignores_rename_result [] renameItem true false (by decide)

/-- fileEquals on two readable files is content equality. -/
theorem fileEquals_some_eq (a b : List Nat) :
    fileEquals (some a) (some b) = (a == b) := by
  unfold fileEquals
  by_cases h : a.length = b.length
  · simp [h]
  · have hne : a ≠ b := fun hab => h (by rw [hab])
    simp [h, hne]

/-- C3: for every upload, a valid UploadResume whose stored modtime equals
the item's current modtime makes the transfer continue from the stored chunk
index with the stored transfer id; otherwise the transfer keeps the freshly
initialised chunk 0 and fresh transfer id. -/
theorem claim_C3_upload_resume (progressInfo : UploadInfo) (m freshId : Nat) :
    (progressInfo.valid = true → progressInfo.modtime = m →
      applyUploadResume progressInfo m freshId
        = (progressInfo.chunk, progressInfo.transferid))
    ∧ (progressInfo.valid = false ∨ progressInfo.modtime ≠ m →
      applyUploadResume progressInfo m freshId = (0, freshId)) := by
  unfold applyUploadResume initTransferIds
  constructor
  · intro hv hm; simp [hv, hm]
  · rintro (hv | hm)
    · simp [hv]
    · by_cases hv : progressInfo.valid <;> simp [hv, hm]

/-- Witness for C3: a matching record resumes at chunk 4 with transfer id 77;
an invalid record starts at chunk 0 with the fresh id 9. -/
theorem claim_C3_upload_resume_witness :
    applyUploadResume ⟨true, 4, 77, 123⟩ 123 9 = (4, 77)
    ∧ applyUploadResume ⟨false, 4, 77, 123⟩ 123 9 = (0, 9) :=
  ⟨(claim_C3_upload_resume ⟨true, 4, 77, 123⟩ 123 9).1 rfl rfl,
   (claim_C3_upload_resume ⟨false, 4, 77, 123⟩ 123 9).2 (Or.inl rfl)⟩

/-- C4: a valid DownloadResume with a different etag has its stale temp file
deleted and the record cleared; a matching one has its temp file reused; and
a non-empty temp file puts Range: bytes=size- on the GET request. -/
theorem claim_C4_download_resume (localDir randHex : List Char)
    (item : SyncFileItem) (progressInfo : DownloadInfo) (sz : Nat) :
    (progressInfo.valid = true → progressInfo.etag ≠ item.etag →
      downloadTmpSelect localDir item randHex progressInfo
        = { tmpFileName := mkFreshTmpName item.file randHex
          , staleTmpRemoved := some (localDir ++ progressInfo.tmpfile)
          , downloadInfoCleared := true })
    ∧ (progressInfo.valid = true → progressInfo.etag = item.etag →
      downloadTmpSelect localDir item randHex progressInfo
        = { tmpFileName := progressInfo.tmpfile
          , staleTmpRemoved := none
          , downloadInfoCleared := false })
    ∧ (0 < sz → requestRange sz = some (rangeHeaderValue sz)) := by
  refine ⟨?_, ?_, ?_⟩
  · intro hv he; simp [downloadTmpSelect, hv, he]
  · intro hv he; simp [downloadTmpSelect, hv, he]
  · intro hs; simp [requestRange, hs]

/-- Witness for C4: a stale record is removed and cleared; a 5-byte temp file
yields a Range header. -/
theorem claim_C4_download_resume_witness :
    downloadTmpSelect [] dlItem ("2b").data dlInfoStale
      = { tmpFileName := mkFreshTmpName dlItem.file ("2b").data
        , staleTmpRemoved := some ([] ++ dlInfoStale.tmpfile)
        , downloadInfoCleared := true }
    ∧ requestRange 5 = some (rangeHeaderValue 5) :=
  ⟨(claim_C4_download_resume [] ("2b").data dlItem dlInfoStale 5).1 rfl
      (by decide),
   (claim_C4_download_resume [] ("2b").data dlItem dlInfoStale 5).2.2
      (by decide)⟩

/-- C5: a successful download of a CONFLICT item whose bytes equal the
existing local file finishes Success with no backup; when the bytes differ
the old file is renamed to the _conflict-stamp name built from the item's
modtime and the job finishes Conflict. -/
theorem claim_C5_conflict_download (fn : List Char)
    (fmtTime : Nat → List Char) (modtime : Nat)
    (localBytes tmpBytes : List Nat) (conflictRenameOk publishRenameOk : Bool)
    (hpub : publishRenameOk = true) :
    (tmpBytes = localBytes →
      downloadFinishPhase SyncInstruction.CONFLICT fn (fmtTime modtime)
          (some localBytes) (some tmpBytes) conflictRenameOk publishRenameOk
        = { status := SyncStatus.Success, backupName := none
          , fileRecordWritten := true, downloadInfoCleared := true
          , published := true })
    ∧ (tmpBytes ≠ localBytes → conflictRenameOk = true →
      downloadFinishPhase SyncInstruction.CONFLICT fn (fmtTime modtime)
          (some localBytes) (some tmpBytes) conflictRenameOk publishRenameOk
        = { status := SyncStatus.Conflict
          , backupName := some (conflictFileName fn (fmtTime modtime))
          , fileRecordWritten := true, downloadInfoCleared := true
          , published := true }) := by
  subst hpub
  constructor
  · intro he; subst he
    simp [downloadFinishPhase, fileEquals_some_eq, finishPublish]
  · intro hne hcr; subst hcr
    have hlt : localBytes ≠ tmpBytes := fun h => hne h.symm
    simp [downloadFinishPhase, fileEquals_some_eq, finishPublish, hlt]

/-- Witness for C5: equal bytes give Success without backup; differing bytes
give Conflict with the backup name. -/
theorem claim_C5_conflict_download_witness :
    downloadFinishPhase SyncInstruction.CONFLICT ("x").data ("TS").data
        (some [1]) (some [1]) true true
      = { status := SyncStatus.Success, backupName := none
        , fileRecordWritten := true, downloadInfoCleared := true
        , published := true }
    ∧ downloadFinishPhase SyncInstruction.CONFLICT ("x").data ("TS").data
        (some [1]) (some [2]) true true
      = { status := SyncStatus.Conflict
        , backupName := some (conflictFileName ("x").data ("TS").data)
        , fileRecordWritten := true, downloadInfoCleared := true
        , published := true } :=
  ⟨(claim_C5_conflict_download ("x").data (fun _ => ("TS").data) 0 [1] [1]
      true true rfl).1 rfl,
   (claim_C5_conflict_download ("x").data (fun _ => ("TS").data) 0 [1] [2]
      true true rfl).2 (by decide) rfl⟩

/-- C6: COUNTEREXAMPLE to the claim as stated.  The loop guard is
(neon_stat == NE_TIMEOUT && (++retry) < 3), so with four all-timeout
outcomes available only three GET dispatches happen before the failure is
classified: the request is retried twice, not three times. -/
theorem claim_C6_counterexample :
    (getRequestLoop [] 0 0 (List.replicate 4 timeoutAttempt)).dispatches = 3
    ∧ ¬ (getRequestLoop [] 0 0 (List.replicate 4 timeoutAttempt)).dispatches
        = 4 := by
  constructor <;> decide

/-- C6 (amended): a download GET that keeps timing out is dispatched exactly
three times (two retries) and the failure is then classified Fatal. -/
theorem claim_C6_timeout_three_attempts (err : List Char) (sz : Nat)
    (a1 a2 a3 : GetAttempt) (rest : List GetAttempt)
    (h1 : a1.neon = NeonCode.NE_TIMEOUT) (h2 : a2.neon = NeonCode.NE_TIMEOUT)
    (h3 : a3.neon = NeonCode.NE_TIMEOUT) :
    (getRequestLoop err 0 sz (a1 :: a2 :: a3 :: rest)).dispatches = 3
    ∧ (getRequestLoop err 0 sz (a1 :: a2 :: a3 :: rest)).exit
      = GetExit.errorExit SyncStatus.FatalError err
          (sz + a1.bytesWritten + a2.bytesWritten + a3.bytesWritten == 0)
          (sz + a1.bytesWritten + a2.bytesWritten + a3.bytesWritten == 0) := by
  simp [getRequestLoop, h1, h2, h3, updateErrorFromSession]

/-- Witness for C6 (amended) at three concrete timeouts. -/
theorem claim_C6_timeout_three_attempts_witness :
    (getRequestLoop [] 0 0 [timeoutAttempt, timeoutAttempt, timeoutAttempt]).dispatches = 3
    ∧ (getRequestLoop [] 0 0 [timeoutAttempt, timeoutAttempt, timeoutAttempt]).exit
      = GetExit.errorExit SyncStatus.FatalError []
          (0 + timeoutAttempt.bytesWritten + timeoutAttempt.bytesWritten
            + timeoutAttempt.bytesWritten == 0)
          (0 + timeoutAttempt.bytesWritten + timeoutAttempt.bytesWritten
            + timeoutAttempt.bytesWritten == 0) :=
  claim_C6_timeout_three_attempts [] 0 timeoutAttempt timeoutAttempt
    timeoutAttempt [] rfl rfl rfl

/-- C7: a download GET loop that exits with an error while the temp file is
still empty removes the temp file and clears the DownloadResume record. -/
theorem claim_C7_failed_download_empty_tmp_cleanup (err : List Char)
    (retry tmpSize : Nat) (attempts : List GetAttempt) (st : SyncStatus)
    (msg : List Char) (rm cl : Bool)
    (hex : (getRequestLoop err retry tmpSize attempts).exit
        = GetExit.errorExit st msg rm cl)
    (h0 : (getRequestLoop err retry tmpSize attempts).finalTmpSize = 0) :
    rm = true ∧ cl = true := by
  induction attempts generalizing retry tmpSize with
  | nil => simp [getRequestLoop] at hex
  | cons a rest ih =>
    simp only [getRequestLoop] at hex h0
    by_cases hc : a.neon = NeonCode.NE_TIMEOUT ∧ retry + 1 < 3
    · simp only [if_pos hc] at hex h0
      exact ih (retry + 1) (tmpSize + a.bytesWritten) hex h0
    · simp only [if_neg hc] at hex h0
      cases hu : updateErrorFromSession a.neon (some a.httpStatus) 0 err with
      | none => rw [hu] at hex; simp at hex
      | some p =>
        obtain ⟨st', msg'⟩ := p
        rw [hu] at hex h0
        simp only [GetExit.errorExit.injEq] at hex
        simp only at h0
        obtain ⟨-, -, hrm, hcl⟩ := hex
        subst hrm hcl
        simp [h0]

/-- Witness for C7: a single failing attempt with zero bytes written. -/
theorem claim_C7_failed_download_empty_tmp_cleanup_witness :
    (getRequestLoop [] 0 0 [failAttempt]).exit
      = GetExit.errorExit SyncStatus.NormalError [] true true
    ∧ (getRequestLoop [] 0 0 [failAttempt]).finalTmpSize = 0
    ∧ (true = true ∧ true = true) :=
  ⟨by decide, by decide,
   claim_C7_failed_download_empty_tmp_cleanup [] 0 0 [failAttempt]
     SyncStatus.NormalError [] true true (by decide) (by decide)⟩

/-- C9: the claim says the session hooks a job installs are removed on every
exit path.  Code bug: when the hbf transfer fails, PropagateUploadFile::start
returns from the error branch (lines 315-329) before the
ne_set_notifier(session, 0, 0) at line 331, so the progress notifier is still
installed when the job exits. -/
theorem claim_C9_upload_error_leaks_notifier :
    propagateUploadFile_start true [HbfState.fail]
      = UploadOutcome.finished SyncStatus.NormalError true := by
  decide

end Mirall
